import Mathlib

/-!
Shallow embedding of the SAF converter (`saf_converter.py`, `validate_saf.py`).

Spreadsheet cells are modelled as `String` (the pipeline reads with
`dtype=str`).  The bitstream directory is modelled as `Option (List String)`:
`none` means the directory does not exist (so `iterdir` raises), `some l`
is the directory listing in enumeration order.  Filesystem writes performed
per record are collected in a `PkgWrite` value; exceptions are modelled with
`Except String`.
-/

namespace SafConverter

/-- Python `\s`-style whitespace characters (ASCII range). -/
def isPySpace (c : Char) : Bool :=
  c = ' ' || c = '\t' || c = '\n' || c = '\x0d' || c = '\x0c' || c = '\x0b'

/-- Python `str.strip()`. -/
def pyStrip (s : String) : String :=
  String.mk (((s.toList.dropWhile isPySpace).reverse.dropWhile isPySpace).reverse)

/-- `needle.isPrefixOf hay` on char lists. -/
def listPrefix : List Char → List Char → Bool
  | [], _ => true
  | _ :: _, [] => false
  | a :: as, b :: bs => a = b && listPrefix as bs

/-- Python `str.lower()` (ASCII range, as used by the headers involved). -/
def strLower (s : String) : String :=
  String.mk (s.toList.map Char.toLower)

/-- `s.startswith(pre)`. -/
def strStartsWith (s pre : String) : Bool :=
  listPrefix pre.toList s.toList

/-- Split a char list at every separator char, keeping empty pieces
(Python `str.split(sep)` semantics). -/
def splitChars (p : Char → Bool) : List Char → List (List Char)
  | [] => [[]]
  | c :: cs =>
    let r := splitChars p cs
    if p c then [] :: r
    else
      match r with
      | [] => [[c]]
      | h :: t => (c :: h) :: t

def strSplit (s : String) (p : Char → Bool) : List String :=
  (splitChars p s.toList).map String.mk

/-- Python `needle in hay` substring test. -/
def strContains (hay needle : String) : Bool :=
  go hay.toList needle.toList
where
  go : List Char → List Char → Bool
    | h, nd => listPrefix nd h ||
        match h with
        | [] => false
        | _ :: t => go t nd

/-- `is_blank` restricted to string cells:
`v.strip().lower() in ["", "nan", "none"]`. -/
def is_blank (v : String) : Bool :=
  let t := strLower (pyStrip v)
  t = "" || t = "nan" || t = "none"

/-- `norm_header`: `str(h).strip()`. -/
def norm_header (h : String) : String := pyStrip h

/-- `norm_key_for_match`: `re.sub(r"[\s_\-\.]+", "", str(h).strip().lower())`. -/
def norm_key_for_match (h : String) : String :=
  String.mk ((strLower (pyStrip h)).toList.filter
    (fun c => !(isPySpace c || c = '_' || c = '-' || c = '.')))

/-- `os.path.basename`: text after the last `/`. -/
def os_basename (s : String) : String :=
  String.mk ((s.toList.reverse.takeWhile (· ≠ '/')).reverse)

/-- `basename_only`: `os.path.basename(str(name).strip())`. -/
def basename_only (name : String) : String := os_basename (pyStrip name)

/-- Final path component as `pathlib` computes it (trailing slashes dropped). -/
def lastPathComponent (s : String) : String :=
  let cs := (s.toList.reverse.dropWhile (· = '/')).reverse
  String.mk ((cs.reverse.takeWhile (· ≠ '/')).reverse)

/-- `Path(fname).suffix`: the `.ext` of the final component, empty when the
last dot is the first character or the last character of the name. -/
def pySuffix (fname : String) : String :=
  let nm := (lastPathComponent fname).toList
  if nm.contains '.' then
    let revtail := nm.reverse.takeWhile (· ≠ '.')
    let i := nm.length - revtail.length - 1
    if 0 < i ∧ i < nm.length - 1 then String.mk (nm.drop i) else ""
  else ""

/-- `Config.ALLOWED_FILE_EXTENSIONS`. -/
def ALLOWED_FILE_EXTENSIONS : List String :=
  [".cr2", ".cr3", ".pdf", ".doc", ".docx", ".jpg", ".jpeg", ".png", ".gif",
   ".tiff", ".mp3", ".mp4", ".wav", ".avi", ".mov", ".mpeg", ".mpg", ".txt",
   ".rtf", ".xls", ".xlsx", ".zip", ".rar", ".7z"]

/-- `Config.REQUIRED_FIELDS`. -/
def REQUIRED_FIELDS : List String := ["title", "creator", "date.issued"]

/-- `is_dc_column`: `col.strip().lower().startswith("dc.")`. -/
def is_dc_column (col : String) : Bool :=
  strStartsWith (strLower (pyStrip col)) "dc."

/-- `base_header`: `re.sub(r"\.(\d+)$", "", col)` — strip one trailing
`.<digits>` segment. -/
def base_header (col : String) : String :=
  let r := col.toList.reverse
  let ds := r.takeWhile Char.isDigit
  match r.drop ds.length with
  | '.' :: rest => if ds.isEmpty then col else String.mk rest.reverse
  | _ => col

/-- `parse_dc`: decompose `dc.element(.qualifier…)` after strip/lower. -/
def parse_dc (col : String) : Option String × Option String :=
  let c := strLower (pyStrip col)
  if !(strStartsWith c "dc.") then (none, none)
  else
    let parts := strSplit c (· = '.')
    if parts.length = 2 then (parts.get? 1, none)
    else if 3 ≤ parts.length then
      (parts.get? 1, some (String.intercalate "." (parts.drop 2)))
    else (none, none)

/-- A `<dcvalue>` node: `element`, `qualifier` ("none" when absent) and text. -/
structure DCValue where
  element : String
  qualifier : String
  text : String
deriving DecidableEq, Repr

/-- Python `qualifier or "none"` / `qualifier if qualifier else "none"`
(`None` and `""` are both falsy). -/
def qualOrNone (q : Option String) : String :=
  match q with
  | none => "none"
  | some s => if s = "" then "none" else s

def tripOf (d : DCValue) : String × String × String :=
  (d.element, d.qualifier, d.text)

/-- Loop body of `write_dc_xml`, with the `seen` dedup set threaded through. -/
def writeDCAux : List (Option String × String) → List (String × String × String) → List DCValue
  | [], _ => []
  | (rawCol, val) :: rest, seen =>
    match rawCol with
    | none => writeDCAux rest seen
    | some rc0 =>
      if is_blank val then writeDCAux rest seen
      else
        let rc := norm_header rc0
        let bc := base_header rc
        if !is_dc_column bc then writeDCAux rest seen
        else
          match parse_dc bc with
          | (none, _) => writeDCAux rest seen
          | (some element, qualifier) =>
            let text := pyStrip val
            if text = "" then writeDCAux rest seen
            else
              let trip := (element, qualOrNone qualifier, text)
              if seen.contains trip then writeDCAux rest seen
              else ⟨element, qualOrNone qualifier, text⟩ :: writeDCAux rest (trip :: seen)

/-- `write_dc_xml`: the sequence of `<dcvalue>` nodes emitted for one record
(the surrounding XML serialization carries no further field information). -/
def write_dc_xml (cols : List (Option String)) (vals : List String) : List DCValue :=
  writeDCAux (cols.zip vals) []

/-- Inner-loop condition of `validate_required_fields`: does the column/value
pair satisfy the required specifier `element`? -/
def matchesRequired (element : String) (col : String) (val : String) : Bool :=
  if is_blank val then false
  else
    let col_base := base_header (norm_header col)
    if !is_dc_column col_base then false
    else
      match parse_dc col_base with
      | (none, _) => false
      | (some en, q) =>
        let eparts := strSplit element (· = '.')
        if en = eparts.getD 0 "" then
          if element.toList.contains '.' then
            q = some (eparts.getD 1 "")
          else true
        else false

/-- `validate_required_fields` (required list passed explicitly; the source
reads `Config.REQUIRED_FIELDS`). -/
def validate_required_fields (cols : List String) (vals : List String)
    (required : List String) : List String :=
  required.foldl
    (fun missing el =>
      if (cols.zip vals).any (fun p => matchesRequired el p.1 p.2) then missing
      else missing ++ [el])
    []

/-- Non-blank cells of a raw row, stripped
(`cells = [str(x).strip() for x in row if not is_blank(x)]`). -/
def rowCellsOf (row : List String) : List String :=
  (row.filter (fun x => !is_blank x)).map pyStrip

/-- `has_filename`: some cell's normalized key contains "filename". -/
def rowHasFilename (row : List String) : Bool :=
  (rowCellsOf row).any (fun c => strContains (norm_key_for_match c) "filename")

/-- `dc_count`: cells whose lowercase form starts with "dc.". -/
def rowDcCount (row : List String) : Nat :=
  ((rowCellsOf row).filter (fun c => strStartsWith (strLower c) "dc.")).length

/-- `has_filename and dc_count >= 2`. -/
def rowGood (row : List String) : Bool :=
  rowHasFilename row && decide (2 ≤ rowDcCount row)

/-- Scan loop of `find_header_row`: index, `best_idx` and `best_dc_count`
threaded (initially `None` and `-1`). -/
def headerScan : List (List String) → Nat → Option Nat → Int → Nat
  | [], _, bestIdx, bestCnt =>
    (match bestIdx with
     | some b => if bestCnt > 0 then b else 0
     | none => 0)
  | row :: rest, i, bestIdx, bestCnt =>
    if rowGood row then i
    else if (rowDcCount row : Int) > bestCnt then
      headerScan rest (i + 1) (some i) (rowDcCount row)
    else headerScan rest (i + 1) bestIdx bestCnt

/-- `find_header_row` on the scanned rows. -/
def find_header_row (rows : List (List String)) : Nat :=
  headerScan rows 0 none (-1)

/-- Declarative restatement of the header-selection rule, following the spec's
words: first row that is `rowGood`; else the first row attaining the maximal
dc-count provided it is positive; else index 0.  Compared against
`find_header_row` below. -/
def maxDcCount (rows : List (List String)) : Nat :=
  (rows.map rowDcCount).foldr max 0

def firstMaxIdx (rows : List (List String)) : Nat :=
  (rows.map rowDcCount).findIdx (fun d => d = maxDcCount rows)

def specHeaderRow (rows : List (List String)) : Nat :=
  match rows.findIdx? rowGood with
  | some k => k
  | none => if 0 < maxDcCount rows then firstMaxIdx rows else 0

/-- `detect_filename_columns`. -/
def detect_filename_columns (cols : List String) : List String :=
  cols.filter fun c =>
    let key := norm_key_for_match c
    strContains key "filename" || strContains key "file" || strContains key "bitstream"

/-- `.exists()` against the modelled directory. -/
def dirExists (dir : Option (List String)) (name : String) : Bool :=
  match dir with
  | none => false
  | some l => l.contains name

/-- `.iterdir()`: raises `FileNotFoundError` when the directory is absent. -/
def iterdir (dir : Option (List String)) : Except String (List String) :=
  match dir with
  | none => Except.error "FileNotFoundError: iterdir"
  | some l => Except.ok l

/-- `re.compile(re.escape(fname), re.IGNORECASE).fullmatch(name)`. -/
def ci_equal (a b : String) : Bool := strLower a = strLower b

/-- One iteration of the `find_files_for_item` loop: the filenames the token
`fname` appends.  Strategy 1 (`continue` on success) stops; otherwise
strategy 2 (first case-insensitive match of the listing) and strategy 3
(extension probing for extensionless tokens) both run — the source has no
`continue` between them. -/
def resolveToken (dir : Option (List String)) (fname : String) :
    Except String (List String) :=
  if dirExists dir fname then Except.ok [fname]
  else
    match iterdir dir with
    | Except.error e => Except.error e
    | Except.ok listing =>
      let s2 := match listing.find? (fun a => ci_equal fname a) with
        | some a => [a]
        | none => []
      let s3 :=
        if pySuffix fname = "" then
          match ALLOWED_FILE_EXTENSIONS.find? (fun ext => dirExists dir (fname ++ ext)) with
          | some ext => [fname ++ ext]
          | none => []
        else []
      Except.ok (s2 ++ s3)

/-- `find_files_for_item`: the `found_files` list (token order preserved). -/
def find_files_for_item : List String → Option (List String) → Except String (List String)
  | [], _ => Except.ok []
  | f :: rest, dir =>
    match resolveToken dir f with
    | Except.error e => Except.error e
    | Except.ok r =>
      match find_files_for_item rest dir with
      | Except.error e => Except.error e
      | Except.ok rs => Except.ok (r ++ rs)

/-- `missing_files = filenames - set(found_files)` (the per-record
missing-files report). -/
def missing_filenames (tokens found : List String) : List String :=
  tokens.filter (fun t => !found.contains t)

/-- Separators of `re.split(r"[;\n|,]+", raw)`. -/
def sepChar (c : Char) : Bool :=
  c = ';' || c = '\n' || c = '|' || c = ','

def addUnique (l : List String) (p : String) : List String :=
  if l.contains p then l else l ++ [p]

/-- Token extraction of the record loop: split each filename-bearing column's
cell on separators, basename, filter placeholders, union into a set
(modelled as a first-occurrence-ordered list). -/
def gather_filenames (cols : List String) (vals : List String) : List String :=
  (detect_filename_columns cols).foldl
    (fun acc col =>
      match (cols.zip vals).find? (fun p => p.1 = col) with
      | none => acc
      | some (_, raw) =>
        if is_blank raw then acc
        else
          (strSplit raw sepChar).foldl
            (fun acc2 part =>
              let p := basename_only (pyStrip part)
              if p ≠ "" ∧ !(["", "none", "nan"].contains (strLower p)) then addUnique acc2 p
              else acc2)
            acc)
    []

/-- What one record's processing wrote into its package directory. -/
structure PkgWrite where
  dirMade : Bool
  warnedFields : List String
  xml : Option (List DCValue)
  contentsFile : Option (List String)
  copied : List String
deriving Repr, DecidableEq

structure RecordStats where
  filesCopied : Nat
  filesMissing : Nat
deriving Repr, DecidableEq

def sortedStrings (l : List String) : List String :=
  l.insertionSort (· ≤ ·)

/-- Body of the per-record `try:` block in `main` (record number only names
the directory).  `bdir` is the bitstream directory, `copyOk` tells whether
`shutil.copy2` succeeds for a filename (per-file copy errors are caught in
the source and merely skip the append to `copied`).  The only modelled
exception source is `find_files_for_item` (directory enumeration). -/
def processRecord (bdir : Option (List String)) (copyOk : String → Bool)
    (cols : List String) (row : List String) : PkgWrite × Except String RecordStats :=
  let warned := validate_required_fields cols row REQUIRED_FIELDS
  let xml := write_dc_xml (cols.map some) row
  let tokens := gather_filenames cols row
  match find_files_for_item tokens bdir with
  | Except.error e =>
    ({ dirMade := true, warnedFields := warned, xml := some xml,
       contentsFile := none, copied := [] }, Except.error e)
  | Except.ok found =>
    let copied := found.filter copyOk
    let missing := missing_filenames tokens found
    ({ dirMade := true, warnedFields := warned, xml := some xml,
       contentsFile := some (sortedStrings copied), copied := copied },
     Except.ok { filesCopied := copied.length, filesMissing := missing.length })

structure RunStats where
  total_records : Nat
  error_count : Nat
  total_files_copied : Nat
  total_missing_files : Nat
deriving Repr, DecidableEq

def isErr {ε α : Type} (e : Except ε α) : Bool :=
  match e with
  | Except.error _ => true
  | Except.ok _ => false

/-- Record loop of `main`: `total_records` increments first; an exception is
caught at the record boundary, increments `error_count`, and the loop moves
on; whatever the record already wrote stays in the output tree. -/
def runRecordsAux (bdir : Option (List String)) (copyOk : String → Bool)
    (cols : List String) :
    List (List String) → Nat → RunStats → List (Nat × PkgWrite) →
    RunStats × List (Nat × PkgWrite)
  | [], _, st, fs => (st, fs)
  | row :: rest, n, st, fs =>
    let pr := processRecord bdir copyOk cols row
    match pr.2 with
    | Except.ok s =>
      runRecordsAux bdir copyOk cols rest (n + 1)
        { st with
          total_records := st.total_records + 1,
          total_files_copied := st.total_files_copied + s.filesCopied,
          total_missing_files := st.total_missing_files + s.filesMissing }
        (fs ++ [(n + 1, pr.1)])
    | Except.error _ =>
      runRecordsAux bdir copyOk cols rest (n + 1)
        { st with
          total_records := st.total_records + 1,
          error_count := st.error_count + 1 }
        (fs ++ [(n + 1, pr.1)])

def runRecords (bdir : Option (List String)) (copyOk : String → Bool)
    (cols : List String) (rows : List (List String)) :
    RunStats × List (Nat × PkgWrite) :=
  runRecordsAux bdir copyOk cols rows 0
    { total_records := 0, error_count := 0,
      total_files_copied := 0, total_missing_files := 0 } []

/-- Expected final package list: one `PkgWrite` per record, in order. -/
def pkgWrites (bdir : Option (List String)) (copyOk : String → Bool)
    (cols : List String) : List (List String) → Nat → List (Nat × PkgWrite)
  | [], _ => []
  | row :: rest, n =>
    (n + 1, (processRecord bdir copyOk cols row).1) :: pkgWrites bdir copyOk cols rest (n + 1)

/-- A package directory as `validate_saf.py` sees it:
`dublin_core = none` — `dublin_core.xml` absent; `some none` — present but
not well-formed XML; `some (some fields)` — parsed `<dcvalue>` nodes.
`contents` — manifest lines, when the file exists.  `files` — names present
in the directory. -/
structure PackageDir where
  dublin_core : Option (Option (List DCValue))
  contents : Option (List String)
  files : List String
deriving Repr, DecidableEq

/-- Python `line.split()` (no argument): whitespace runs, no empties. -/
def pySplitWs (s : String) : List String :=
  (strSplit s isPySpace).filter (· ≠ "")

/-- Manifest loop of `validate_item`.  `line.strip().split()[0]` raises
`IndexError` on a line with no tokens; the exception propagates out of the
function (there is no `try` around it), discarding the issues. -/
def contentsIssues (files : List String) : List String → Except String (List String)
  | [] => Except.ok []
  | line :: rest =>
    match pySplitWs (pyStrip line) with
    | [] => Except.error "IndexError: list index out of range"
    | fname :: _ =>
      match contentsIssues files rest with
      | Except.error e => Except.error e
      | Except.ok is_ =>
        Except.ok ((if !files.contains fname then
          ["Listed in contents but missing: " ++ fname] else []) ++ is_)

/-- `validate_item`: the issue list for one package, or the uncaught
exception. -/
def validate_item (pkg : PackageDir) : Except String (List String) :=
  match pkg.dublin_core with
  | none => Except.ok ["Missing dublin_core.xml"]
  | some none => Except.ok ["Invalid XML"]
  | some (some fields) =>
    let hasEl := fun (el : String) =>
      fields.any (fun d => pyStrip d.text ≠ "" && d.element = el)
    let hasElQ := fun (el q : String) =>
      fields.any (fun d => pyStrip d.text ≠ "" && d.element = el && d.qualifier = q)
    let metaIssues :=
      (if !hasEl "title" then ["Missing required metadata: dc.title"] else []) ++
      (if !hasEl "creator" then ["Missing required metadata: dc.creator"] else []) ++
      (if !hasElQ "date" "issued" then ["Missing required metadata: dc.date.issued"] else [])
    match pkg.contents with
    | none => Except.ok (metaIssues ++ ["Missing contents file"])
    | some lines =>
      match contentsIssues pkg.files lines with
      | Except.error e => Except.error e
      | Except.ok cis => Except.ok (metaIssues ++ cis)

/-- Whether a record's processing raises. -/
def recordErr (bdir : Option (List String)) (copyOk : String → Bool)
    (cols : List String) (row : List String) : Bool :=
  isErr (processRecord bdir copyOk cols row).2

def recordCopiedCount (bdir : Option (List String)) (copyOk : String → Bool)
    (cols : List String) (row : List String) : Nat :=
  match (processRecord bdir copyOk cols row).2 with
  | Except.ok s => s.filesCopied
  | Except.error _ => 0

def recordMissingCount (bdir : Option (List String)) (copyOk : String → Bool)
    (cols : List String) (row : List String) : Nat :=
  match (processRecord bdir copyOk cols row).2 with
  | Except.ok s => s.filesMissing
  | Except.error _ => 0

section Theorems

/-- **C2 counterexample.** Token "photo" is resolved (by extension probing, to
"photo.jpg"), yet the missing-files computation
`filenames - set(found_files)` still reports it as missing. -/
theorem claim2_counterexample :
    find_files_for_item ["photo"] (some ["photo.jpg"]) = Except.ok ["photo.jpg"] ∧
    missing_filenames ["photo"] ["photo.jpg"] = ["photo"] := by
  exact ⟨rfl, rfl⟩

/-- **C2 (amended).** The per-record missing-files report contains exactly the
originally-requested tokens that do not occur verbatim among the resolved
filenames; a token resolved to a name differing from it (by case or by
extension completion) is therefore still reported as missing. -/
theorem claim2_fixed (tokens found : List String) (t : String) :
    t ∈ missing_filenames tokens found ↔ t ∈ tokens ∧ t ∉ found := by
  simp [missing_filenames]

/-- **C1 counterexample.** A single extensionless token can contribute two
resolved filenames: strategy 2 (case-insensitive) succeeds and strategy 3
(extension probing) still runs afterwards. -/
theorem claim1_counterexample :
    ∃ l, find_files_for_item ["photo"] (some ["PHOTO", "photo.jpg"]) = Except.ok l ∧
      1 < l.length := by
  exact ⟨["PHOTO", "photo.jpg"], rfl, by decide⟩

/-- **C1 (amended).** Strategy 1 (exact match) stops processing for a token,
so an exactly-matching token resolves only to itself.  When strategy 1 fails,
strategies 2 and 3 both run (the source has no `continue` after strategy 2),
so a token contributes at most two resolved filenames, and at most one when
it has an extension (strategy 3 is skipped). -/
theorem claim1_fixed (fname : String) (listing : List String) (l : List String)
    (h : resolveToken (some listing) fname = Except.ok l) :
    l.length ≤ 2 ∧ (fname ∈ listing → l = [fname]) ∧
      (pySuffix fname ≠ "" → l.length ≤ 1) := by
  rw [resolveToken] at h
  by_cases hex : dirExists (some listing) fname = true
  · rw [if_pos hex] at h
    injection h with h
    subst h
    refine ⟨by simp, fun _ => rfl, fun _ => by simp⟩
  · rw [if_neg hex] at h
    simp only [iterdir] at h
    injection h with h
    subst h
    have hmem : fname ∉ listing := by
      intro hm
      exact hex (by simpa [dirExists] using hm)
    refine ⟨?_, fun hm => absurd hm hmem, ?_⟩
    · cases hf : listing.find? (fun a => ci_equal fname a) <;>
        cases hg : ALLOWED_FILE_EXTENSIONS.find?
            (fun ext => dirExists (some listing) (fname ++ ext)) <;>
        by_cases hs : pySuffix fname = "" <;>
        simp [hf, hg, hs]
    · intro hs
      rw [if_neg hs]
      cases hf : listing.find? (fun a => ci_equal fname a) <;> simp [hf]

/-- **C1 witness** for the amended theorem, at the two-resolution input. -/
theorem claim1_fixed_witness :
    (["PHOTO", "photo.jpg"] : List String).length ≤ 2 ∧
      ("photo" ∈ (["PHOTO", "photo.jpg"] : List String) →
        ["PHOTO", "photo.jpg"] = ["photo"]) ∧
      (pySuffix "photo" ≠ "" → (["PHOTO", "photo.jpg"] : List String).length ≤ 1) :=
  claim1_fixed "photo" ["PHOTO", "photo.jpg"] ["PHOTO", "photo.jpg"] rfl

/-- **C6 counterexample.** A package whose manifest contains a blank line makes
`validate_item` raise `IndexError` (from `line.strip().split()[0]`); the
exception escapes the per-package check. -/
theorem claim6_counterexample :
    validate_item ⟨some (some []), some [""], []⟩ =
      Except.error "IndexError: list index out of range" := by
  exact rfl

/-- **C6 (amended).** Provided every manifest line contains at least one
whitespace-delimited token, no exception escapes a single package's check:
missing or malformed metadata documents, a missing manifest, and manifest
entries naming absent files all merely accumulate issues. -/
theorem claim6_fixed (pkg : PackageDir)
    (h : ∀ lines, pkg.contents = some lines → ∀ l ∈ lines, pySplitWs (pyStrip l) ≠ []) :
    ∃ issues, validate_item pkg = Except.ok issues := by
  have hissues : ∀ (files : List String) (lines : List String),
      (∀ l ∈ lines, pySplitWs (pyStrip l) ≠ []) →
      ∃ is_, contentsIssues files lines = Except.ok is_ := by
    intro files lines hl
    induction lines with
    | nil => exact ⟨[], rfl⟩
    | cons a as ih =>
      obtain ⟨is2, h2⟩ := ih (fun l hm => hl l (List.mem_cons_of_mem a hm))
      have ha := hl a (List.mem_cons_self a as)
      rw [contentsIssues]
      cases hsp : pySplitWs (pyStrip a) with
      | nil => exact absurd hsp ha
      | cons f fs =>
        rw [h2]
        exact ⟨_, rfl⟩
  obtain ⟨dc, cont, files⟩ := pkg
  cases dc with
  | none => exact ⟨_, rfl⟩
  | some o =>
    cases o with
    | none => exact ⟨_, rfl⟩
    | some fields =>
      cases cont with
      | none => exact ⟨_, rfl⟩
      | some lines =>
        obtain ⟨is_, hok⟩ := hissues files lines (h lines rfl)
        simp only [validate_item]
        rw [hok]
        exact ⟨_, rfl⟩

/-- **C6 witness** for the amended theorem. -/
theorem claim6_fixed_witness :
    ∃ issues, validate_item ⟨none, none, []⟩ = Except.ok issues :=
  claim6_fixed ⟨none, none, []⟩ (by intro lines hl; exact absurd hl (by simp))

/-- The `seen` invariant of the dedup loop: emitted triples are distinct and
none of them is in the incoming `seen` set. -/
theorem writeDCAux_triples (pairs : List (Option String × String))
    (seen : List (String × String × String)) :
    ((writeDCAux pairs seen).map tripOf).Nodup ∧
      ∀ t ∈ (writeDCAux pairs seen).map tripOf, seen.contains t = false := by
  induction pairs generalizing seen with
  | nil => simp [writeDCAux]
  | cons hd tl ih =>
    obtain ⟨c, v⟩ := hd
    cases c with
    | none => simpa only [writeDCAux] using ih seen
    | some rc0 =>
      simp only [writeDCAux]
      split
      · exact ih seen
      · split
        · exact ih seen
        · split
          · exact ih seen
          · next element qualifier heq =>
            split
            · exact ih seen
            · split
              · exact ih seen
              · next hseen =>
                have hrest := ih ((element, qualOrNone qualifier, pyStrip v) :: seen)
                simp only [List.map_cons, tripOf]
                constructor
                · refine List.nodup_cons.mpr ⟨?_, hrest.1⟩
                  intro hmem
                  have := hrest.2 _ hmem
                  simp [List.contains_cons] at this
                · intro t ht
                  rcases List.mem_cons.mp ht with h1 | h1
                  · subst h1
                    simpa using hseen
                  · have := hrest.2 t h1
                    simp [List.contains_cons] at this
                    simpa using this.2

/-- **C4.** Within one record the emitted metadata nodes carry pairwise
distinct (element, qualifier, text) triples; in particular the repeat-suffix
pair "dc.subject" / "dc.subject.2" holding the same text yields exactly one
node. -/
theorem claim4_dedup (cols : List (Option String)) (vals : List String) :
    ((write_dc_xml cols vals).map tripOf).Nodup ∧
      write_dc_xml [some "dc.subject", some "dc.subject.2"] ["History", "History"]
        = [⟨"subject", "none", "History"⟩] :=
  ⟨(writeDCAux_triples (cols.zip vals) []).1, rfl⟩

/-- `base_header` removes a trailing all-digit segment. -/
theorem base_header_append_digits (s ds : String) (h2 : ds ≠ "")
    (h3 : ds.toList.all Char.isDigit = true) :
    base_header (s ++ "." ++ ds) = s := by
  have hdigits : ∀ c ∈ ds.toList.reverse, Char.isDigit c = true := by
    intro c hc
    exact List.all_eq_true.mp h3 c (List.mem_reverse.mp hc)
  have hdata : (s ++ "." ++ ds).toList = s.toList ++ '.' :: ds.toList := by
    show (s ++ "." ++ ds).data = s.data ++ '.' :: ds.data
    rw [String.data_append, String.data_append]
    simp
  have hrev : (s ++ "." ++ ds).toList.reverse
      = ds.toList.reverse ++ '.' :: s.toList.reverse := by
    rw [hdata, List.reverse_append, List.reverse_cons, List.append_assoc]
    simp
  have htake : ((s ++ "." ++ ds).toList.reverse).takeWhile Char.isDigit
      = ds.toList.reverse := by
    rw [hrev, List.takeWhile_append_of_pos hdigits,
      List.takeWhile_cons_of_neg (by decide)]
    simp
  have hne : ds.toList.reverse ≠ [] := by
    intro hnil
    apply h2
    have hl : ds.toList = [] := by simpa using hnil
    cases ds with
    | mk data =>
      have hd : data = [] := hl
      subst hd
      rfl
  simp only [base_header]
  rw [htake, hrev, List.drop_left]
  simp only [List.isEmpty_iff]
  rw [if_neg hne]
  simp

/-- **C9.** A canonical column name ending in a dot followed only by digits is
decomposed from its digit-stripped base form: the emitted node's element and
qualifier come from `parse_dc` of the stripped name, and "dc.date.2024" is
emitted with element "date" and qualifier "none". -/
theorem claim9_strip (col s ds val : String)
    (h1 : pyStrip col = s ++ "." ++ ds) (h2 : ds ≠ "")
    (h3 : ds.toList.all Char.isDigit = true) :
    base_header (pyStrip col) = s ∧
      (∀ node ∈ write_dc_xml [some col] [val],
        ∃ q, parse_dc s = (some node.element, q) ∧ node.qualifier = qualOrNone q) ∧
      write_dc_xml [some "dc.date.2024"] ["1999-01-01"]
        = [⟨"date", "none", "1999-01-01"⟩] := by
  have hbase : base_header (pyStrip col) = s := by
    rw [h1]
    exact base_header_append_digits s ds h2 h3
  refine ⟨hbase, ?_, rfl⟩
  intro node hnode
  have hrw : write_dc_xml [some col] [val] = writeDCAux [(some col, val)] [] := rfl
  rw [hrw] at hnode
  simp only [writeDCAux, norm_header] at hnode
  rw [hbase] at hnode
  split at hnode
  · exact absurd hnode (List.not_mem_nil node)
  · split at hnode
    · exact absurd hnode (List.not_mem_nil node)
    · split at hnode
      · exact absurd hnode (List.not_mem_nil node)
      · next element qualifier heq =>
        split at hnode
        · exact absurd hnode (List.not_mem_nil node)
        · split at hnode
          · exact absurd hnode (List.not_mem_nil node)
          · rw [List.mem_singleton] at hnode
            subst hnode
            exact ⟨qualifier, heq, rfl⟩

/-- **C9 witness.** -/
theorem claim9_strip_witness :
    base_header (pyStrip "dc.date.2024") = "dc.date" ∧
      (∀ node ∈ write_dc_xml [some "dc.date.2024"] ["1999-01-01"],
        ∃ q, parse_dc "dc.date" = (some node.element, q) ∧
          node.qualifier = qualOrNone q) ∧
      write_dc_xml [some "dc.date.2024"] ["1999-01-01"]
        = [⟨"date", "none", "1999-01-01"⟩] :=
  claim9_strip "dc.date.2024" "dc.date" "2024" "1999-01-01" rfl (by decide) (by decide)

/-- The accumulator loop of the required-field check is a filter. -/
theorem foldl_required_filter (pred : String → Bool) (req acc : List String) :
    req.foldl (fun missing el => if pred el then missing else missing ++ [el]) acc
      = acc ++ req.filter (fun el => !pred el) := by
  induction req generalizing acc with
  | nil => simp
  | cons a as ih =>
    by_cases h : pred a = true
    · simp [List.foldl_cons, h, ih]
    · simp [List.foldl_cons, h, ih]

/-- **C7.** The required-field checker returns exactly (and in order) the
specifiers with no matching metadata-bearing column holding a non-blank
value; a record with title and creator but no date-issued reports exactly
`date.issued`.  (The checker is a total function: it never raises.) -/
theorem claim7_required (cols vals req : List String) :
    validate_required_fields cols vals req
        = req.filter (fun el => !((cols.zip vals).any (fun p => matchesRequired el p.1 p.2)))
      ∧ (∀ el, el ∈ validate_required_fields cols vals req ↔
          el ∈ req ∧ ((cols.zip vals).any (fun p => matchesRequired el p.1 p.2)) = false)
      ∧ validate_required_fields ["dc.title", "dc.creator"] ["A Title", "An Author"]
          REQUIRED_FIELDS = ["date.issued"] := by
  have hf : validate_required_fields cols vals req
      = req.filter (fun el => !((cols.zip vals).any (fun p => matchesRequired el p.1 p.2))) := by
    unfold validate_required_fields
    simpa using foldl_required_filter
      (fun el => (cols.zip vals).any (fun p => matchesRequired el p.1 p.2)) req []
  refine ⟨hf, ?_, rfl⟩
  intro el
  rw [hf, List.mem_filter]
  simp

/-- **C5.** For a record processed without an exception, the manifest is
written, is sorted ascending, and lists exactly the files actually copied
(per-file copy failures are excluded because only successful copies are
appended to `copied`); a record with nothing resolved or copied yields an
empty manifest. -/
theorem claim5_manifest (bdir : Option (List String)) (copyOk : String → Bool)
    (cols row : List String) (st : RecordStats)
    (h : (processRecord bdir copyOk cols row).2 = Except.ok st) :
    ∃ ls, (processRecord bdir copyOk cols row).1.contentsFile = some ls
      ∧ List.Sorted (· ≤ ·) ls
      ∧ (∀ f, f ∈ ls ↔ f ∈ (processRecord bdir copyOk cols row).1.copied)
      ∧ ((processRecord bdir copyOk cols row).1.copied = [] → ls = []) := by
  cases hf : find_files_for_item (gather_filenames cols row) bdir with
  | error e =>
    rw [processRecord] at h
    rw [hf] at h
    exact absurd h (by simp)
  | ok found =>
    simp only [processRecord, hf]
    refine ⟨sortedStrings (found.filter copyOk), rfl, ?_, ?_, ?_⟩
    · exact List.sorted_insertionSort _ _
    · intro f
      simp [sortedStrings, List.mem_insertionSort]
    · intro hc
      rw [sortedStrings, hc]
      rfl

/-- **C5 witness.** -/
theorem claim5_manifest_witness :
    ∃ ls, (processRecord (some ["photo.jpg"]) (fun _ => true)
        ["Filename"] ["photo.jpg"]).1.contentsFile = some ls
      ∧ List.Sorted (· ≤ ·) ls
      ∧ (∀ f, f ∈ ls ↔ f ∈ (processRecord (some ["photo.jpg"]) (fun _ => true)
          ["Filename"] ["photo.jpg"]).1.copied)
      ∧ ((processRecord (some ["photo.jpg"]) (fun _ => true)
          ["Filename"] ["photo.jpg"]).1.copied = [] → ls = []) :=
  claim5_manifest (some ["photo.jpg"]) (fun _ => true) ["Filename"] ["photo.jpg"]
    ⟨1, 0⟩ rfl

/-- Both branches of a record's processing create the package directory and
write the metadata document before the fallible file association runs. -/
theorem processRecord_always_writes (bdir : Option (List String))
    (copyOk : String → Bool) (cols row : List String) :
    (processRecord bdir copyOk cols row).1.dirMade = true ∧
      ((processRecord bdir copyOk cols row).1.xml).isSome = true := by
  cases hf : find_files_for_item (gather_filenames cols row) bdir <;>
    simp [processRecord, hf]

/-- Closed form of the record loop: every record is processed, the error
counter counts exactly the records whose processing raised, and the final
output tree is the concatenation of every record's writes. -/
theorem runRecordsAux_spec (bdir : Option (List String)) (copyOk : String → Bool)
    (cols : List String) (rows : List (List String)) :
    ∀ (n : Nat) (st : RunStats) (fs : List (Nat × PkgWrite)),
      (runRecordsAux bdir copyOk cols rows n st fs).1.total_records
          = st.total_records + rows.length
      ∧ (runRecordsAux bdir copyOk cols rows n st fs).1.error_count
          = st.error_count + (rows.filter (recordErr bdir copyOk cols)).length
      ∧ (runRecordsAux bdir copyOk cols rows n st fs).2
          = fs ++ pkgWrites bdir copyOk cols rows n := by
  induction rows with
  | nil =>
    intro n st fs
    simp [runRecordsAux, pkgWrites]
  | cons r rs ih =>
    intro n st fs
    simp only [runRecordsAux]
    cases hp : (processRecord bdir copyOk cols r).2 with
    | ok s =>
      have herr : recordErr bdir copyOk cols r = false := by
        simp [recordErr, hp, isErr]
      obtain ⟨ht, he, hf⟩ := ih (n + 1)
        { st with
          total_records := st.total_records + 1,
          total_files_copied := st.total_files_copied + s.filesCopied,
          total_missing_files := st.total_missing_files + s.filesMissing }
        (fs ++ [(n + 1, (processRecord bdir copyOk cols r).1)])
      refine ⟨?_, ?_, ?_⟩
      · rw [ht]
        simp
        omega
      · rw [he]
        simp [List.filter_cons, herr]
      · rw [hf]
        simp [pkgWrites]
    | error e =>
      have herr : recordErr bdir copyOk cols r = true := by
        simp [recordErr, hp, isErr]
      obtain ⟨ht, he, hf⟩ := ih (n + 1)
        { st with
          total_records := st.total_records + 1,
          error_count := st.error_count + 1 }
        (fs ++ [(n + 1, (processRecord bdir copyOk cols r).1)])
      refine ⟨?_, ?_, ?_⟩
      · rw [ht]
        simp
        omega
      · rw [he]
        simp [List.filter_cons, herr]
        omega
      · rw [hf]
        simp [pkgWrites]

/-- Every entry of the expected output tree has its directory created and its
metadata document written. -/
theorem pkgWrites_all_writes (bdir : Option (List String)) (copyOk : String → Bool)
    (cols : List String) :
    ∀ (rows : List (List String)) (n : Nat),
      (pkgWrites bdir copyOk cols rows n).all
        (fun p => p.2.dirMade && (p.2.xml).isSome) = true := by
  intro rows
  induction rows with
  | nil => intro n; rfl
  | cons r rs ih =>
    intro n
    have hw := processRecord_always_writes bdir copyOk cols r
    simp [pkgWrites, List.all_cons, hw.1, hw.2, ih (n + 1)]

/-- **C8.** Every record is processed (the loop never stops early), the
run-level error counter counts exactly the records whose processing raised
an exception, and nothing is rolled back: the final output tree is exactly
the concatenation of each record's writes, each with its directory created
and metadata document written — including the records that raised. -/
theorem claim8_record_boundary (bdir : Option (List String)) (copyOk : String → Bool)
    (cols : List String) (rows : List (List String)) :
    (runRecords bdir copyOk cols rows).1.total_records = rows.length
  ∧ (runRecords bdir copyOk cols rows).1.error_count
      = (rows.filter (recordErr bdir copyOk cols)).length
  ∧ (runRecords bdir copyOk cols rows).2 = pkgWrites bdir copyOk cols rows 0
  ∧ (runRecords bdir copyOk cols rows).2.all
      (fun p => p.2.dirMade && (p.2.xml).isSome) = true := by
  obtain ⟨ht, he, hf⟩ := runRecordsAux_spec bdir copyOk cols rows 0
    { total_records := 0, error_count := 0,
      total_files_copied := 0, total_missing_files := 0 } []
  refine ⟨by simpa [runRecords] using ht, by simpa [runRecords] using he,
    by simpa [runRecords] using hf, ?_⟩
  have h2 : (runRecords bdir copyOk cols rows).2 = pkgWrites bdir copyOk cols rows 0 := by
    simpa [runRecords] using hf
  rw [h2]
  exact pkgWrites_all_writes bdir copyOk cols rows 0

/-- With the bitstream directory absent, a nonempty token list raises at the
first token (strategy 1 finds nothing, strategy 2 calls `iterdir`). -/
theorem find_files_none_err (f : String) (rest : List String) :
    find_files_for_item (f :: rest) none
      = Except.error "FileNotFoundError: iterdir" := rfl

/-- **C10.** When the bitstream directory does not exist: a record with a
non-empty extracted token set raises during file association (directory
enumeration), leaving a package with a metadata document but no manifest;
a record with no tokens completes normally with an empty manifest; and the
run counts exactly the token-bearing records as records with errors. -/
theorem claim10_missing_dir (copyOk : String → Bool) (cols row : List String)
    (rows : List (List String)) :
    (gather_filenames cols row ≠ [] →
      (processRecord none copyOk cols row).2
          = Except.error "FileNotFoundError: iterdir"
      ∧ ((processRecord none copyOk cols row).1.xml).isSome = true
      ∧ (processRecord none copyOk cols row).1.contentsFile = none)
  ∧ (gather_filenames cols row = [] →
      (processRecord none copyOk cols row).2
          = Except.ok { filesCopied := 0, filesMissing := 0 }
      ∧ (processRecord none copyOk cols row).1.contentsFile = some [])
  ∧ (runRecords none copyOk cols rows).1.error_count
      = (rows.filter (fun r => !(gather_filenames cols r).isEmpty)).length := by
  refine ⟨?_, ?_, ?_⟩
  · intro hne
    cases hg : gather_filenames cols row with
    | nil => exact absurd hg hne
    | cons f rest =>
      refine ⟨?_, ?_, ?_⟩ <;> simp [processRecord, hg, find_files_none_err]
  · intro hg
    refine ⟨?_, ?_⟩ <;>
      simp [processRecord, hg, find_files_for_item, missing_filenames,
        sortedStrings, List.insertionSort]
  · have hpred : ∀ r, recordErr none copyOk cols r = !(gather_filenames cols r).isEmpty := by
      intro r
      cases hg : gather_filenames cols r with
      | nil => simp [recordErr, processRecord, hg, find_files_for_item, isErr]
      | cons f rest => simp [recordErr, processRecord, hg, find_files_none_err, isErr]
    obtain ⟨ht, he, hf⟩ := runRecordsAux_spec none copyOk cols rows 0
      { total_records := 0, error_count := 0,
        total_files_copied := 0, total_missing_files := 0 } []
    rw [List.filter_congr (fun r _ => hpred r)] at he
    simpa [runRecords] using he

/-- **C10 witness**: both branches at concrete inputs. -/
theorem claim10_missing_dir_witness :
    ((processRecord none (fun _ => true) ["Filename"] ["a.jpg"]).2
          = Except.error "FileNotFoundError: iterdir"
      ∧ ((processRecord none (fun _ => true) ["Filename"] ["a.jpg"]).1.xml).isSome = true
      ∧ (processRecord none (fun _ => true) ["Filename"] ["a.jpg"]).1.contentsFile = none)
  ∧ ((processRecord none (fun _ => true) ["Filename"] [""]).2
          = Except.ok { filesCopied := 0, filesMissing := 0 }
      ∧ (processRecord none (fun _ => true) ["Filename"] [""]).1.contentsFile = some []) :=
  ⟨(claim10_missing_dir (fun _ => true) ["Filename"] ["a.jpg"] []).1 (by decide),
   (claim10_missing_dir (fun _ => true) ["Filename"] [""] []).2.1 (by decide)⟩

/-- The scan returns the first good row, at its absolute index. -/
theorem headerScan_found (rs : List (List String)) :
    ∀ (i : Nat) (b : Option Nat) (c : Int) (k : Nat),
      List.findIdx? rowGood rs i = some k → headerScan rs i b c = k := by
  induction rs with
  | nil =>
    intro i b c k h
    simp [List.findIdx?] at h
  | cons r rs ih =>
    intro i b c k h
    rw [List.findIdx?_cons] at h
    by_cases hg : rowGood r = true
    · rw [if_pos hg] at h
      injection h with h
      subst h
      simp [headerScan, hg]
    · rw [if_neg hg] at h
      simp only [headerScan]
      rw [if_neg (by simp [hg])]
      split
      · exact ih (i + 1) _ _ k h
      · exact ih (i + 1) _ _ k h

theorem maxDcCount_cons (r : List String) (rs : List (List String)) :
    maxDcCount (r :: rs) = max (rowDcCount r) (maxDcCount rs) := rfl

theorem mem_le_maxDcCount (rows : List (List String)) (r : List String)
    (h : r ∈ rows) : rowDcCount r ≤ maxDcCount rows := by
  induction rows with
  | nil => cases h
  | cons a as ih =>
    rcases List.mem_cons.mp h with h1 | h1
    · subst h1
      rw [maxDcCount_cons]
      exact Nat.le_max_left _ _
    · rw [maxDcCount_cons]
      exact le_trans (ih h1) (Nat.le_max_right _ _)

/-- When the head row's count is strictly below the tail's maximum, the first
index attaining the maximum moves one step right. -/
theorem firstMaxIdx_cons_of_lt (r : List String) (rs : List (List String))
    (h : rowDcCount r < maxDcCount rs) :
    firstMaxIdx (r :: rs) = firstMaxIdx rs + 1 := by
  have hmx : maxDcCount (r :: rs) = maxDcCount rs := by
    rw [maxDcCount_cons]
    omega
  simp only [firstMaxIdx, List.map_cons, List.findIdx_cons, hmx]
  have hfalse : decide (rowDcCount r = maxDcCount rs) = false := by
    simp only [decide_eq_false_iff_not]
    omega
  rw [hfalse]
  rfl

theorem firstMaxIdx_cons_of_eq (r : List String) (rs : List (List String))
    (h : maxDcCount (r :: rs) = rowDcCount r) :
    firstMaxIdx (r :: rs) = 0 := by
  simp only [firstMaxIdx, List.map_cons, List.findIdx_cons]
  have htrue : decide (rowDcCount r = maxDcCount (r :: rs)) = true := by
    simp [h]
  rw [htrue]
  rfl

/-- With no good row left and no count exceeding the running best, the scan
keeps the recorded best (or falls back to 0 when the best is not positive). -/
theorem headerScan_stay (rs : List (List String)) :
    ∀ (i b : Nat) (c : Int),
      (∀ r ∈ rs, rowGood r = false) →
      (∀ r ∈ rs, (rowDcCount r : Int) ≤ c) →
      headerScan rs i (some b) c = if c > 0 then b else 0 := by
  induction rs with
  | nil => intro i b c _ _; rfl
  | cons r rs ih =>
    intro i b c hg hle
    have h1 := hg r (List.mem_cons_self r rs)
    have h2 := hle r (List.mem_cons_self r rs)
    simp only [headerScan]
    rw [if_neg (by simp [h1]), if_neg (by omega)]
    exact ih (i + 1) b c (fun x hx => hg x (List.mem_cons_of_mem _ hx))
      (fun x hx => hle x (List.mem_cons_of_mem _ hx))

/-- With no good row and all counts zero, the scan falls back to index 0. -/
theorem headerScan_zeroAll (rs : List (List String)) :
    ∀ (i : Nat) (b : Option Nat) (c : Int),
      (∀ r ∈ rs, rowGood r = false) →
      (∀ r ∈ rs, rowDcCount r = 0) →
      c ≤ 0 → headerScan rs i b c = 0 := by
  induction rs with
  | nil =>
    intro i b c _ _ hc
    cases b with
    | none => rfl
    | some b' =>
      simp only [headerScan]
      rw [if_neg (by omega)]
  | cons r rs ih =>
    intro i b c hg hz hc
    have h1 := hg r (List.mem_cons_self r rs)
    have h2 := hz r (List.mem_cons_self r rs)
    have hgt : ∀ x ∈ rs, rowGood x = false := fun x hx => hg x (List.mem_cons_of_mem _ hx)
    have hzt : ∀ x ∈ rs, rowDcCount x = 0 := fun x hx => hz x (List.mem_cons_of_mem _ hx)
    simp only [headerScan]
    rw [if_neg (by simp [h1])]
    by_cases hcg : (rowDcCount r : Int) > c
    · rw [if_pos hcg]
      exact ih (i + 1) (some i) _ hgt hzt (by rw [h2]; exact le_refl 0)
    · rw [if_neg hcg]
      exact ih (i + 1) b c hgt hzt hc

/-- With no good row and some count strictly above the running best, the scan
lands on the first index attaining the maximal count. -/
theorem headerScan_improve (rs : List (List String)) :
    ∀ (i : Nat) (b : Option Nat) (c : Int),
      (∀ r ∈ rs, rowGood r = false) →
      c < (maxDcCount rs : Int) →
      0 < maxDcCount rs →
      headerScan rs i b c = i + firstMaxIdx rs := by
  induction rs with
  | nil =>
    intro i b c _ _ hpos
    simp [maxDcCount] at hpos
  | cons r rs ih =>
    intro i b c hg hlt hpos
    have h1 := hg r (List.mem_cons_self r rs)
    have hgt : ∀ x ∈ rs, rowGood x = false := fun x hx => hg x (List.mem_cons_of_mem _ hx)
    simp only [headerScan]
    rw [if_neg (by simp [h1])]
    by_cases hcg : (rowDcCount r : Int) > c
    · rw [if_pos hcg]
      by_cases htail : maxDcCount rs ≤ rowDcCount r
      · have hmx : maxDcCount (r :: rs) = rowDcCount r := by
          rw [maxDcCount_cons]
          omega
        have hall : ∀ x ∈ rs, (rowDcCount x : Int) ≤ (rowDcCount r : Int) := by
          intro x hx
          have := mem_le_maxDcCount rs x hx
          omega
        rw [headerScan_stay rs (i + 1) i (rowDcCount r) hgt hall]
        have hpos' : 0 < rowDcCount r := by
          rw [maxDcCount_cons] at hpos
          omega
        rw [if_pos (by omega), firstMaxIdx_cons_of_eq r rs hmx]
        omega
      · push_neg at htail
        rw [ih (i + 1) (some i) (rowDcCount r) hgt (by exact_mod_cast htail)
          (by omega), firstMaxIdx_cons_of_lt r rs htail]
        omega
    · rw [if_neg hcg]
      have hrc : (rowDcCount r : Int) ≤ c := by omega
      have hlt' : c < (maxDcCount rs : Int) := by
        rw [maxDcCount_cons] at hlt
        push_cast at hlt
        omega
      have htail : rowDcCount r < maxDcCount rs := by
        have : (rowDcCount r : Int) < (maxDcCount rs : Int) := by omega
        exact_mod_cast this
      rw [ih (i + 1) b c hgt hlt' (by omega), firstMaxIdx_cons_of_lt r rs htail]
      omega

/-- **C3.** The header detector implements the specified selection rule: the
first row with a filename-like cell and at least 2 schema-prefix cells;
otherwise the first row attaining the strictly greatest prefix-count when
that count is positive; otherwise index 0.  Rows with prefix-counts
[0,1,3,2] and no filename-like cell yield index 2. -/
theorem claim3_header (rows : List (List String)) :
    find_header_row rows = specHeaderRow rows ∧
      find_header_row [["x"], ["dc.a"], ["dc.a", "dc.b", "dc.c"], ["dc.a", "dc.b"]] = 2 := by
  refine ⟨?_, rfl⟩
  rw [specHeaderRow]
  cases hidx : rows.findIdx? rowGood with
  | some k =>
    exact headerScan_found rows 0 none (-1) k hidx
  | none =>
    have hall : ∀ r ∈ rows, rowGood r = false := List.findIdx?_eq_none_iff.mp hidx
    by_cases hpos : 0 < maxDcCount rows
    · rw [if_pos hpos]
      have h := headerScan_improve rows 0 none (-1) hall (by omega) hpos
      simpa [find_header_row] using h
    · rw [if_neg hpos]
      have hz : ∀ r ∈ rows, rowDcCount r = 0 := by
        intro r hr
        have := mem_le_maxDcCount rows r hr
        omega
      exact headerScan_zeroAll rows 0 none (-1) hall hz (by omega)

end Theorems

end SafConverter

